import Mathlib

/-!
Verification of the tool-call extraction and dispatch loop of the
`aiblueprint-agents-demo` coding-assistant CLI.

The development shallowly embeds `src/index.ts`.  The file concatenates
three successive variants of the same agent; the first variant (the one
the bulk of the claims cite) defines the tools `readfile`, `writefile`,
`bash`, `get_tweet`, `grep` and `glob`, and the second variant adds
`webfetch` and `ls` (with attributes `path` and `depth`).

Modelling conventions:
* JavaScript strings are Lean `String`s, manipulated as `List Char`.
* Each `RegExp.matchAll` call is embedded as a hand-rolled deterministic
  matcher for that concrete regular expression plus a scanner that, like
  the JS engine, tries the match at every position from left to right and
  resumes after the end of each successful match.  The backtracking of
  each concrete pattern collapses to a deterministic scan: every capture
  class excludes the character that closes it, so a shorter greedy run can
  never make the closing character match.
* Effectful platform calls (`Bun.file`, `Bun.write`, `Bun.spawnSync`,
  `generateText`) are oracles passed in as function arguments; thrown
  exceptions are `Except.error` results of those oracles, carrying the
  JS string interpolation of the thrown value.
* The unbounded `runAgent` recursion is embedded with explicit fuel;
  `none` means the fuel ran out (the run did not finish within the given
  number of model calls), `some` is normal completion.
-/

/-- Message role, from the `ModelMessage` values used by `src/index.ts`. -/
inductive Role where
  | system
  | user
  | assistant
deriving DecidableEq

/-- Conversation message `{ role, content }`. -/
structure Message where
  role : Role
  content : String
deriving DecidableEq

/-- Parsed tool call `{ name: string; params: Record<string, string> }`
(`ToolType` in the source); the params record is kept in insertion order. -/
structure ToolCall where
  name : String
  params : List (String × String)
deriving DecidableEq

/-- Bifurcated handler result `{ aiOutput, userOutput }`. -/
structure ToolResult where
  aiOutput : String
  userOutput : String
deriving DecidableEq

/-- State of the agent: the module-level `messages` array plus the index of
the next response the model oracle will produce. -/
structure AgentState where
  messages : List Message
  idx : Nat
deriving DecidableEq

/-- Characters matched by the JavaScript regex class `\s`. -/
def wsChar (c : Char) : Bool :=
  c = ' ' || c = '\t' || c = '\n' || c = '\r' || c = '\x0b' || c = '\x0c' ||
  c.toNat = 0xa0 || c.toNat = 0x1680 ||
  (0x2000 ≤ c.toNat && c.toNat ≤ 0x200a) ||
  c.toNat = 0x2028 || c.toNat = 0x2029 || c.toNat = 0x202f ||
  c.toNat = 0x205f || c.toNat = 0x3000 || c.toNat = 0xfeff

/-- Match a literal piece of a regex: consume exactly `pat` from the front. -/
def lit : List Char → List Char → Option (List Char)
  | [], cs => some cs
  | _ :: _, [] => none
  | p :: ps, c :: cs => if p = c then lit ps cs else none

/-- Literal matcher taking the pattern as a string. -/
def litS (pat : String) (cs : List Char) : Option (List Char) :=
  lit pat.toList cs

/-- Embeds `([^"]+)"`: a nonempty greedy run of non-quote characters
followed by the closing quote.  Returns the capture and the rest. -/
def capPlus (cs : List Char) : Option (String × List Char) :=
  match cs.dropWhile (fun c => c ≠ '"') with
  | '"' :: r =>
    let run := cs.takeWhile (fun c => c ≠ '"')
    if run.isEmpty then none else some (String.mk run, r)
  | _ => none

/-- Embeds `([^"]*)"`: a possibly empty greedy run of non-quote characters
followed by the closing quote. -/
def capStar (cs : List Char) : Option (String × List Char) :=
  match cs.dropWhile (fun c => c ≠ '"') with
  | '"' :: r => some (String.mk (cs.takeWhile (fun c => c ≠ '"')), r)
  | _ => none

/-- Embeds `\s*`: drop a greedy run of whitespace. -/
def wsStar (cs : List Char) : List Char :=
  cs.dropWhile wsChar

/-- Embeds `\s+`: at least one whitespace character, then a greedy run. -/
def wsPlus (cs : List Char) : Option (List Char) :=
  match cs with
  | [] => none
  | c :: _ => if wsChar c then some (cs.dropWhile wsChar) else none

/-- Embeds `\s*\/>`: optional whitespace then the self-closing bracket. -/
def tailClose (cs : List Char) : Option (List Char) :=
  litS "/>" (wsStar cs)

/-- Embeds the greedy loop `(?:[^"\\]|\\.)*` of the `content` capture:
repeatedly consume either one character that is neither quote nor
backslash, or a backslash followed by any character `.` matches (any
character except a line terminator).  Returns the consumed run and the
rest. -/
def escRun : List Char → (List Char × List Char)
  | [] => ([], [])
  | '"' :: t => ([], '"' :: t)
  | '\\' :: [] => ([], ['\\'])
  | '\\' :: d :: t =>
    if d = '\n' || d = '\r' || d.toNat = 0x2028 || d.toNat = 0x2029 then
      ([], '\\' :: d :: t)
    else
      match escRun t with
      | (u, r) => ('\\' :: d :: u, r)
  | c :: t =>
    match escRun t with
    | (u, r) => (c :: u, r)

/-- The JavaScript `x || d` default for an optional capture: `undefined`
and the empty string are falsy. -/
def jsOr (o : Option String) (d : String) : String :=
  match o with
  | some s => if s = "" then d else s
  | none => d

/-- Matcher for `/<readfile file="([^"]+)"\s*\/>/`. -/
def matchReadfile (cs : List Char) : Option (String × List Char) := do
  let r1 ← litS "<readfile file=\"" cs
  let (f, r2) ← capPlus r1
  let r3 ← tailClose r2
  some (f, r3)

/-- Matcher for
`/<writefile file="([^"]+)"\s+content="((?:[^"\\]|\\.)*)"\s*\/>/`. -/
def matchWritefile (cs : List Char) : Option ((String × String) × List Char) := do
  let r1 ← litS "<writefile file=\"" cs
  let (f, r2) ← capPlus r1
  let r3 ← wsPlus r2
  let r4 ← litS "content=\"" r3
  let (c, r5) := escRun r4
  let r6 ← match r5 with
    | '"' :: t => some t
    | _ => none
  let r7 ← tailClose r6
  some ((f, String.mk c), r7)

/-- Matcher for `/<bash command="([^"]+)"\s*\/>/`. -/
def matchBash (cs : List Char) : Option (String × List Char) := do
  let r1 ← litS "<bash command=\"" cs
  let (c, r2) ← capPlus r1
  let r3 ← tailClose r2
  some (c, r3)

/-- Matcher for `/<get_tweet tweet_id="([^"]+)"\s*\/>/`. -/
def matchGetTweet (cs : List Char) : Option (String × List Char) := do
  let r1 ← litS "<get_tweet tweet_id=\"" cs
  let (c, r2) ← capPlus r1
  let r3 ← tailClose r2
  some (c, r3)

/-- An optional attribute group `(?:\s+NAME="([^"]+)")?`: whitespace, the
attribute literal (`pat` is `NAME="`), and a nonempty capture. -/
def optAttr (pat : String) (cs : List Char) : Option (String × List Char) := do
  let r1 ← wsPlus cs
  let r2 ← litS pat r1
  capPlus r2

/-- Matcher for `/<grep pattern="([^"]+)"(?:\s+dir="([^"]+)")?\s*\/>/`.
If the optional group matches but the tail does not, the engine backtracks
to the group-skipped alternative. -/
def matchGrep (cs : List Char) : Option ((String × Option String) × List Char) := do
  let r1 ← litS "<grep pattern=\"" cs
  let (p, r2) ← capPlus r1
  match optAttr "dir=\"" r2 with
  | some (d, r3) =>
    match tailClose r3 with
    | some r4 => some ((p, some d), r4)
    | none =>
      match tailClose r2 with
      | some r4 => some ((p, none), r4)
      | none => none
  | none =>
    match tailClose r2 with
    | some r4 => some ((p, none), r4)
    | none => none

/-- Matcher for `/<glob pattern="([^"]+)"(?:\s+dir="([^"]+)")?\s*\/>/`. -/
def matchGlob (cs : List Char) : Option ((String × Option String) × List Char) := do
  let r1 ← litS "<glob pattern=\"" cs
  let (p, r2) ← capPlus r1
  match optAttr "dir=\"" r2 with
  | some (d, r3) =>
    match tailClose r3 with
    | some r4 => some ((p, some d), r4)
    | none =>
      match tailClose r2 with
      | some r4 => some ((p, none), r4)
      | none => none
  | none =>
    match tailClose r2 with
    | some r4 => some ((p, none), r4)
    | none => none

/-- One `matchAll` scan: try the matcher at every position from left to
right, recording the start position of each match and resuming after its
end; on failure advance one character.  The fuel is an upper bound on the
number of scan steps (each step either consumes the match or one
character, so `cs.length` steps always suffice); the `rest.length` guard
only certifies termination and is never taken for the matchers above,
which always consume at least their literal head. -/
def scanPosAux {α : Type} (m : List Char → Option (α × List Char)) :
    Nat → Nat → List Char → List (Nat × α)
  | 0, _, _ => []
  | _ + 1, _, [] => []
  | fuel + 1, i, c :: t =>
    match m (c :: t) with
    | some (a, rest) =>
      let rest1 := if rest.length < t.length + 1 then rest else t
      (i, a) :: scanPosAux m fuel (i + (t.length + 1 - rest1.length)) rest1
    | none => scanPosAux m fuel (i + 1) t

/-- Scan a whole character list from position 0. -/
def scanPos {α : Type} (m : List Char → Option (α × List Char))
    (cs : List Char) : List (Nat × α) :=
  scanPosAux m cs.length 0 cs

/-- The `readfile` group of `parseTools`: one pushed call per match. -/
def readGroup (text : String) : List ToolCall :=
  (scanPos matchReadfile text.toList).map fun pc =>
    ⟨"readfile", [("file", pc.2)]⟩

/-- The `writefile` group of `parseTools`. -/
def writeGroup (text : String) : List ToolCall :=
  (scanPos matchWritefile text.toList).map fun pc =>
    ⟨"writefile", [("file", pc.2.1), ("content", pc.2.2)]⟩

/-- The `bash` group of `parseTools`. -/
def bashGroup (text : String) : List ToolCall :=
  (scanPos matchBash text.toList).map fun pc =>
    ⟨"bash", [("command", pc.2)]⟩

/-- The `get_tweet` group of `parseTools`. -/
def tweetGroup (text : String) : List ToolCall :=
  (scanPos matchGetTweet text.toList).map fun pc =>
    ⟨"get_tweet", [("tweet_id", pc.2)]⟩

/-- The `grep` group of `parseTools`; a missing `dir` capture defaults to
`"."` through `match[2] || "."`. -/
def grepGroup (text : String) : List ToolCall :=
  (scanPos matchGrep text.toList).map fun pc =>
    ⟨"grep", [("pattern", pc.2.1), ("dir", jsOr pc.2.2 ".")]⟩

/-- The `glob` group of `parseTools`. -/
def globGroup (text : String) : List ToolCall :=
  (scanPos matchGlob text.toList).map fun pc =>
    ⟨"glob", [("pattern", pc.2.1), ("dir", jsOr pc.2.2 ".")]⟩

/-- `parseTools` of the first variant of `src/index.ts`: the six
`matchAll` loops pushing into `tools`, in program order. -/
def parseTools (text : String) : List ToolCall :=
  readGroup text ++ writeGroup text ++ bashGroup text ++ tweetGroup text ++
    grepGroup text ++ globGroup text

/-- Matcher for
`/<webfetch url="([^"]+)"\s+prompt="((?:[^"\\]|\\.)*)"\s*\/>/`
(second variant of the file). -/
def matchWebfetch (cs : List Char) : Option ((String × String) × List Char) := do
  let r1 ← litS "<webfetch url=\"" cs
  let (u, r2) ← capPlus r1
  let r3 ← wsPlus r2
  let r4 ← litS "prompt=\"" r3
  let (c, r5) := escRun r4
  let r6 ← match r5 with
    | '"' :: t => some t
    | _ => none
  let r7 ← tailClose r6
  some ((u, String.mk c), r7)

/-- An optional attribute group `(?:\s+NAME="([^"]*)")?` with a possibly
empty capture, used by the `ls` regex. -/
def optAttrStar (pat : String) (cs : List Char) : Option (String × List Char) := do
  let r1 ← wsPlus cs
  let r2 ← litS pat r1
  capStar r2

/-- Continuation of the `ls` regex after the optional `path` group: the
optional `depth` group and the tail `\s*\/>`, with the engine backtracking
to the group-skipped alternative when the tail fails. -/
def lsAfterPath (p : Option String) (r : List Char) :
    Option ((Option String × Option String) × List Char) :=
  match optAttrStar "depth=\"" r with
  | some (d, r2) =>
    match tailClose r2 with
    | some r3 => some ((p, some d), r3)
    | none =>
      match tailClose r with
      | some r3 => some ((p, none), r3)
      | none => none
  | none =>
    match tailClose r with
    | some r3 => some ((p, none), r3)
    | none => none

/-- Body of the `ls` matcher after the `<ls` literal: the optional `path`
group (with backtracking to the group-skipped alternative) followed by
`lsAfterPath`. -/
def lsBody (r0 : List Char) :
    Option ((Option String × Option String) × List Char) :=
  match optAttrStar "path=\"" r0 with
  | some (p, r1) =>
    match lsAfterPath (some p) r1 with
    | some res => some res
    | none => lsAfterPath none r0
  | none => lsAfterPath none r0

/-- Matcher for `/<ls(?:\s+path="([^"]*)")?(?:\s+depth="([^"]*)")?\s*\/>/`
(second variant of the file). -/
def matchLs (cs : List Char) :
    Option ((Option String × Option String) × List Char) := do
  let r0 ← litS "<ls" cs
  lsBody r0

/-- The `webfetch` group of the second variant's `parseTools`. -/
def webfetchGroup (text : String) : List ToolCall :=
  (scanPos matchWebfetch text.toList).map fun pc =>
    ⟨"webfetch", [("url", pc.2.1), ("prompt", pc.2.2)]⟩

/-- The `ls` group of the second variant's `parseTools`:
`path: match[1] || "."` and `depth: match[2] || "3"`. -/
def lsGroup (text : String) : List ToolCall :=
  (scanPos matchLs text.toList).map fun pc =>
    ⟨"ls", [("path", jsOr pc.2.1 "."), ("depth", jsOr pc.2.2 "3")]⟩

/-- `parseTools` of the second variant of `src/index.ts` (the variant whose
tool registry adds `webfetch` and `ls`). -/
def parseToolsV2 (text : String) : List ToolCall :=
  readGroup text ++ writeGroup text ++ bashGroup text ++ tweetGroup text ++
    grepGroup text ++ globGroup text ++ webfetchGroup text ++ lsGroup text

/-- Lower-case hexadecimal digit, for JSON control-character escapes. -/
def hexDigit (n : Nat) : Char :=
  if n < 10 then Char.ofNat (48 + n) else Char.ofNat (87 + n)

/-- JSON string escaping of one character, as `JSON.stringify` performs on
the members of `tool.params`. -/
def jsonEscapeChar (c : Char) : List Char :=
  if c = '"' then ['\\', '"']
  else if c = '\\' then ['\\', '\\']
  else if c = '\x08' then ['\\', 'b']
  else if c = '\t' then ['\\', 't']
  else if c = '\n' then ['\\', 'n']
  else if c = '\x0c' then ['\\', 'f']
  else if c = '\r' then ['\\', 'r']
  else if c.toNat < 0x20 then
    ['\\', 'u', '0', '0', hexDigit (c.toNat / 16), hexDigit (c.toNat % 16)]
  else [c]

/-- JSON quoting of one string. -/
def jsonQuote (s : String) : String :=
  String.mk ('"' :: ((s.toList.map jsonEscapeChar).flatten ++ ['"']))

/-- `JSON.stringify` of the params record, keys in insertion order. -/
def jsonStringify (ps : List (String × String)) : String :=
  "\x7b" ++
    String.intercalate "," (ps.map fun kv => jsonQuote kv.1 ++ ":" ++ jsonQuote kv.2) ++
    "\x7d"

/-- The synthetic `role: "user"` message the dispatch loop pushes after a
tool run: the handler's `aiOutput` (and nothing else) wrapped in a
`tool` element carrying the name and the stringified params. -/
def toolMessage (t : ToolCall) (aiOut : String) : Message :=
  ⟨Role.user,
    "<tool name=\"" ++ t.name ++ "\" params=\"" ++ jsonStringify t.params ++
      "\">" ++ aiOut ++ "</tool>"⟩

/-- The `for (const tool of tools)` body of `runAgent`: execute the tool,
push exactly one synthetic user message carrying its `aiOutput`, then
recursively re-invoke the agent (`ra`) before moving to the next tool. -/
def runTools (ra : AgentState → Option AgentState) (exec : ToolCall → ToolResult) :
    AgentState → List ToolCall → Option AgentState
  | st, [] => some st
  | st, t :: rest =>
    let result := exec t
    let st1 : AgentState := ⟨st.messages ++ [toolMessage t result.aiOutput], st.idx⟩
    match ra st1 with
    | none => none
    | some st2 => runTools ra exec st2 rest

/-- Fuel-indexed embedding of `runAgent`: push the optional user input,
draw the next model response from the oracle, parse it, return when no
tools were found, and otherwise run the dispatch loop.  `none` means the
fuel was exhausted before the recursion finished. -/
def runAgentAux (oracle : Nat → String) (exec : ToolCall → ToolResult) :
    Nat → AgentState → Option String → Option AgentState
  | 0, _, _ => none
  | fuel + 1, st, userInput =>
    let st0 : AgentState :=
      match userInput with
      | some s => ⟨st.messages ++ [⟨Role.user, s⟩], st.idx⟩
      | none => st
    let text := oracle st0.idx
    let st1 : AgentState := ⟨st0.messages, st0.idx + 1⟩
    let tools := parseTools text
    if tools = [] then some st1
    else runTools (fun s => runAgentAux oracle exec fuel s none) exec st1 tools

/-- The call to `runAgent` terminates for some amount of fuel. -/
def agentTerminates (oracle : Nat → String) (exec : ToolCall → ToolResult)
    (st : AgentState) (input : Option String) : Prop :=
  ∃ fuel st2, runAgentAux oracle exec fuel st input = some st2

/-- The call to `runAgent` runs out of any amount of fuel: the recursion
never returns. -/
def agentDiverges (oracle : Nat → String) (exec : ToolCall → ToolResult)
    (st : AgentState) (input : Option String) : Prop :=
  ∀ fuel, runAgentAux oracle exec fuel st input = none

/-- Model oracle showing that one tool-free response does not force
termination: the first response requests two tools, the second response
is tool-free, and every later response requests one tool again. -/
def cexOracle : Nat → String
  | 0 => "<readfile file=\"a\"/><readfile file=\"b\"/>"
  | 1 => ""
  | _ + 2 => "<readfile file=\"a\"/>"

/-- Tool executor oracle used by the nontermination counterexample. -/
def cexExec : ToolCall → ToolResult := fun _ => ⟨"ok", "ok"⟩

/-- Initial state used by the nontermination counterexample. -/
def cexStart : AgentState := ⟨[], 0⟩

/-- Character list of one `<ls path="..." depth="..."/>` tag with the
given attribute values, followed by the rest of the response text. -/
def lsTagChars (p d : String) (rest : List Char) : List Char :=
  '<' :: 'l' :: 's' :: ' ' :: 'p' :: 'a' :: 't' :: 'h' :: '=' :: '"' ::
    (p.toList ++ '"' :: ' ' :: 'd' :: 'e' :: 'p' :: 't' :: 'h' :: '=' :: '"' ::
      (d.toList ++ '"' :: '/' :: '>' :: rest))

/-- Integer logarithm in base 1024 with explicit fuel; `ilogAux n n` is
`Math.floor(Math.log(n)/Math.log(1024))` with the float logarithms
idealised as exact real logarithms. -/
def ilogAux : Nat → Nat → Nat
  | 0, _ => 0
  | fuel + 1, n => if n < 1024 then 0 else ilogAux fuel (n / 1024) + 1

/-- The unit index `i` computed by `formatFileSize`. -/
def ilog1024 (n : Nat) : Nat :=
  ilogAux n n

/-- `Math.round`-to-two-decimals numerator: `(bytes / p).toFixed(2)` as the
integer `round(100 * bytes / p)` (ties rounded up, as `toFixed` does for
positive numbers). -/
def toFixed2Num (bytes p : Nat) : Nat :=
  (200 * bytes + p) / (2 * p)

/-- Rendering of `parseFloat(x.toFixed(2))` for the nonnegative value
`m / 100`: trailing fractional zeros are dropped. -/
def renderFixed2 (m : Nat) : String :=
  let ip := m / 100
  let fr := m % 100
  if fr = 0 then toString ip
  else if fr % 10 = 0 then toString ip ++ "." ++ toString (fr / 10)
  else if fr < 10 then toString ip ++ "." ++ "0" ++ toString fr
  else toString ip ++ "." ++ toString fr

/-- The `sizes` array of `formatFileSize`. -/
def sizesArr : List String :=
  ["B", "KB", "MB", "GB"]

/-- Embedding of `formatFileSize`: JavaScript `sizes[i]` is `undefined`
past the end of the array, and string concatenation renders `undefined` as
the text `"undefined"`. -/
def formatFileSize (bytes : Nat) : String :=
  if bytes = 0 then "0 B"
  else
    renderFixed2 (toFixed2Num bytes (1024 ^ ilog1024 bytes)) ++ " " ++
      sizesArr.getD (ilog1024 bytes) "undefined"

/-- One pass of `String.replaceAll` with the nonempty pattern `p :: ps`:
non-overlapping occurrences are replaced left to right.  The fuel is an
upper bound on the number of consumed characters (each step consumes at
least one, so the length of the scanned list always suffices). -/
def goRep (p : Char) (ps rep : List Char) : Nat → List Char → List Char
  | 0, s => s
  | _ + 1, [] => []
  | fuel + 1, c :: t =>
    if (p :: ps).isPrefixOf (c :: t) then
      rep ++ goRep p ps rep fuel (t.drop ps.length)
    else c :: goRep p ps rep fuel t

/-- JavaScript `s.replaceAll(pat, rep)` for a nonempty pattern (the only
kind the source uses). -/
def replaceAllStr (s pat rep : String) : String :=
  match pat.toList with
  | [] => s
  | p :: ps => String.mk (goRep p ps rep.toList s.toList.length s.toList)

/-- The `writefile` unescaper: `\n`, then `\t`, then `\"`, in that order. -/
def processContent (content : String) : String :=
  replaceAllStr (replaceAllStr (replaceAllStr content "\\n" "\n") "\\t" "\t")
    "\\\"" "\""

/-- JavaScript `String.prototype.trim`. -/
def jsTrim (s : String) : String :=
  String.mk (((s.toList.dropWhile wsChar).reverse.dropWhile wsChar).reverse)

/-- `output.split("\n").filter(line => line.trim()).length`. -/
def countNonBlankLines (s : String) : Nat :=
  ((s.splitOn "\n").filter fun l => jsTrim l != "").length

/-- Substring occurrence test on character lists. -/
def isSubList (sub : List Char) : List Char → Bool
  | [] => sub.isEmpty
  | c :: t => sub.isPrefixOf (c :: t) || isSubList sub t

/-- JavaScript `String.prototype.includes`. -/
def jsIncludes (s sub : String) : Bool :=
  isSubList sub.toList s.toList

/-- The `readfile` handler.  `readOp` is the `Bun.file` read oracle
returning the content and the size, or the stringified thrown error. -/
def readFile (readOp : String → Except String (String × Nat))
    (filename : String) : ToolResult :=
  match readOp filename with
  | Except.ok (content, size) =>
    ⟨content, "📄 " ++ filename ++ " (" ++ formatFileSize size ++ ")"⟩
  | Except.error e =>
    let errorMsg := "Error reading " ++ filename ++ ": " ++ e
    ⟨errorMsg, "❌ " ++ errorMsg⟩

/-- The `writefile` handler.  `writeOp` receives the file name and the
unescaped content `Bun.write` is called with, and returns the written
file's size or the stringified thrown error. -/
def writeFile (writeOp : String → String → Except String Nat)
    (filename content : String) : ToolResult :=
  let processedContent := processContent content
  match writeOp filename processedContent with
  | Except.ok size =>
    ⟨"File " ++ filename ++ " written successfully. New content: " ++
        processedContent,
      "✅ " ++ filename ++ " written (" ++ formatFileSize size ++ ")"⟩
  | Except.error e =>
    let errorMsg := "Error writing " ++ filename ++ ": " ++ e
    ⟨errorMsg, "❌ " ++ errorMsg⟩

/-- The `get_tweet` handler (a pure stub in the source). -/
def getTweet (tweet_id : String) : ToolResult :=
  ⟨"Tweet " ++ tweet_id ++ ": Hello je suis un super tweet de melvynxdev",
    "🐦 Tweet " ++ tweet_id ++ " retrieved"⟩

/-- The `bash` handler.  `spawnOp` is the `Bun.spawnSync` oracle mapping
the spawned command to its stdout, or to the stringified thrown error. -/
def bash (spawnOp : String → Except String String) (command : String) :
    ToolResult :=
  match spawnOp command with
  | Except.ok output =>
    ⟨output,
      "⚡ " ++ command ++ " (" ++ toString (countNonBlankLines output) ++
        " lines output)"⟩
  | Except.error e =>
    let errorMsg := "Error executing command: " ++ e
    ⟨errorMsg, "❌ " ++ errorMsg⟩

/-- The shell command string the `grep` handler spawns. -/
def grepCommand (pattern directory : String) : String :=
  "cd " ++ directory ++ " && git ls-files | xargs grep -nE \"" ++ pattern ++
    "\" 2>/dev/null || echo \"No matches found for pattern: " ++ pattern ++ "\""

/-- The `grep` handler. -/
def grep (spawnOp : String → Except String String)
    (pattern directory : String) : ToolResult :=
  match spawnOp (grepCommand pattern directory) with
  | Except.ok raw =>
    let result := jsTrim raw
    let output :=
      if result = "" then "No matches found for pattern: " ++ pattern else result
    let numMatches :=
      if jsIncludes result "No matches found" then 0 else countNonBlankLines output
    ⟨output,
      "🔍 Found " ++ toString numMatches ++ " matches for \"" ++ pattern ++
        "\" in " ++ directory⟩
  | Except.error e =>
    let errorMsg := "Error searching pattern \"" ++ pattern ++ "\": " ++ e
    ⟨errorMsg, "❌ " ++ errorMsg⟩

/-- The shell command string the `glob` handler spawns. -/
def globCommand (pattern directory : String) : String :=
  "cd " ++ directory ++ " && find . -name \"" ++ pattern ++
    "\" -type f 2>/dev/null | sed 's|^./||' | sort || echo \"No files found matching pattern: " ++
    pattern ++ "\""

/-- The `glob` handler. -/
def glob (spawnOp : String → Except String String)
    (pattern directory : String) : ToolResult :=
  match spawnOp (globCommand pattern directory) with
  | Except.ok raw =>
    let result := jsTrim raw
    let output :=
      if result = "" then "No files found matching pattern: " ++ pattern
      else result
    let files :=
      if jsIncludes result "No files found" then 0 else countNonBlankLines output
    ⟨output,
      "📁 Found " ++ toString files ++ " files matching \"" ++ pattern ++
        "\" in " ++ directory⟩
  | Except.error e =>
    let errorMsg := "Error searching files with pattern \"" ++ pattern ++ "\": " ++ e
    ⟨errorMsg, "❌ " ++ errorMsg⟩

/-- The platform oracles `executeTool` dispatches over. -/
structure SysOps where
  readOp : String → Except String (String × Nat)
  writeOp : String → String → Except String Nat
  spawnOp : String → Except String String

/-- `tool.params.KEY` access: a missing key is `undefined`, which JS
string interpolation renders as `"undefined"`. -/
def getParam (ps : List (String × String)) (k : String) : String :=
  match ps.lookup k with
  | some v => v
  | none => "undefined"

/-- `tool.params.dir` access as an argument of a defaulted parameter: a
missing key is `undefined`, which triggers the `directory = "."`
default. -/
def getParamOrDot (ps : List (String × String)) (k : String) : String :=
  match ps.lookup k with
  | some v => v
  | none => "."

/-- `executeTool` instrumented with a flag recording whether the final
`Unknown tool` fallback was taken. -/
def executeToolB (ops : SysOps) (tool : ToolCall) : ToolResult × Bool :=
  if tool.name = "readfile" then
    (readFile ops.readOp (getParam tool.params "file"), false)
  else if tool.name = "writefile" then
    (writeFile ops.writeOp (getParam tool.params "file")
      (getParam tool.params "content"), false)
  else if tool.name = "bash" then
    (bash ops.spawnOp (getParam tool.params "command"), false)
  else if tool.name = "get_tweet" then
    (getTweet (getParam tool.params "tweet_id"), false)
  else if tool.name = "grep" then
    (grep ops.spawnOp (getParam tool.params "pattern")
      (getParamOrDot tool.params "dir"), false)
  else if tool.name = "glob" then
    (glob ops.spawnOp (getParam tool.params "pattern")
      (getParamOrDot tool.params "dir"), false)
  else
    (⟨"Unknown tool: " ++ tool.name, "❌ " ++ ("Unknown tool: " ++ tool.name)⟩,
      true)

/-- `executeTool` of the first variant. -/
def executeTool (ops : SysOps) (tool : ToolCall) : ToolResult :=
  (executeToolB ops tool).1

/-- Fuel-indexed embedding of the `startAgent` read-line loop.  `inputs k`
is the `prompt("You:")` result of iteration `k` (`none` is a null line);
`agent` runs `runAgent` on one input and `none` means that run never
returned; the returned list accumulates the `console.log` lines of the
loop itself, ending with the goodbye message. -/
def startAgentLoop (inputs : Nat → Option String)
    (agent : String → AgentState → Option AgentState) :
    Nat → Nat → AgentState → List String → Option (AgentState × List String)
  | 0, _, _, _ => none
  | fuel + 1, k, st, outs =>
    let userInput := inputs k
    if userInput = some "exit" then some (st, outs ++ ["Goodbye!"])
    else
      match userInput with
      | some s =>
        if s = "" then startAgentLoop inputs agent fuel (k + 1) st outs
        else
          match agent s st with
          | some st2 => startAgentLoop inputs agent fuel (k + 1) st2 outs
          | none => none
      | none => startAgentLoop inputs agent fuel (k + 1) st outs

/-- Registry rank of a tool name: the order in which `parseTools` scans
the tool kinds. -/
def rankOf (name : String) : Nat :=
  if name = "readfile" then 0
  else if name = "writefile" then 1
  else if name = "bash" then 2
  else if name = "get_tweet" then 3
  else if name = "grep" then 4
  else 5

/-- Model oracle used by concrete witnesses: always requests one bash tool. -/
def dOracle : Nat → String := fun _ => "<bash command=\"ls\"/>"

/-- Tool executor oracle used by concrete witnesses. -/
def dExec : ToolCall → ToolResult := fun _ => ⟨"out", "shown"⟩

/-- Start state used by concrete witnesses. -/
def dState : AgentState := ⟨[], 0⟩

/-- Model oracle whose responses never contain a tool tag. -/
def apOracle : Nat → String := fun _ => "no tools here"

/-- Start state with a system prompt, used by concrete witnesses. -/
def apState : AgentState := ⟨[⟨Role.system, "sys"⟩], 0⟩

/-- Failing read oracle used by concrete witnesses. -/
def failReadOp : String → Except String (String × Nat) :=
  fun _ => Except.error "ENOENT"

/-- Failing write oracle used by concrete witnesses. -/
def failWriteOp : String → String → Except String Nat :=
  fun _ _ => Except.error "EACCES"

/-- Failing spawn oracle used by concrete witnesses. -/
def failSpawnOp : String → Except String String :=
  fun _ => Except.error "spawn failed"

/-- Succeeding write oracle used by concrete witnesses. -/
def okWriteOp : String → String → Except String Nat :=
  fun _ _ => Except.ok 5

/-- CLI input stream used by concrete witnesses: a blank line, a real
request, then the sentinel. -/
def cliInputs : Nat → Option String :=
  fun k => if k = 0 then some "" else if k = 1 then some "run it" else some "exit"

/-- Agent stub used by concrete witnesses of the CLI loop. -/
def cliAgent : String → AgentState → Option AgentState := fun _ st => some st

/-- Start state used by concrete witnesses of the CLI loop. -/
def cliState : AgentState := ⟨[], 0⟩

/-- C1.  For every parsed tool call in the list returned by `parseTools`,
the dispatch loop invokes the tool's handler (`exec t`), appends exactly
one synthetic `role: "user"` message whose content wraps the handler's
`aiOutput` — and only `aiOutput`, never `userOutput` — in a
`<tool name=... params=...>...</tool>` element, and recursively re-invokes
the model before moving on to the rest of the parsed tools; and when the
parsed tool list of a response is nonempty, `runAgent` enters this loop on
it. -/
theorem runAgent_dispatch_step (oracle : Nat → String)
    (exec : ToolCall → ToolResult) (fuel : Nat) (st : AgentState)
    (t : ToolCall) (rest : List ToolCall) :
    (runTools (fun s => runAgentAux oracle exec fuel s none) exec st (t :: rest) =
      (match runAgentAux oracle exec fuel
          ⟨st.messages ++ [toolMessage t (exec t).aiOutput], st.idx⟩ none with
        | none => none
        | some st2 =>
          runTools (fun s => runAgentAux oracle exec fuel s none) exec st2 rest))
    ∧ (toolMessage t (exec t).aiOutput).role = Role.user
    ∧ (toolMessage t (exec t).aiOutput).content =
        "<tool name=\"" ++ t.name ++ "\" params=\"" ++ jsonStringify t.params ++
          "\">" ++ (exec t).aiOutput ++ "</tool>"
    ∧ (parseTools (oracle st.idx) ≠ [] →
        runAgentAux oracle exec (fuel + 1) st none =
          runTools (fun s => runAgentAux oracle exec fuel s none) exec
            ⟨st.messages, st.idx + 1⟩ (parseTools (oracle st.idx))) := by
  refine ⟨rfl, rfl, rfl, fun h => ?_⟩
  simp only [runAgentAux, if_neg h]

/-- Witness for C1 at a concrete one-tool response. -/
theorem runAgent_dispatch_step_witness :
    runAgentAux dOracle dExec 1 dState none =
      runTools (fun s => runAgentAux dOracle dExec 0 s none) dExec
        ⟨dState.messages, dState.idx + 1⟩ (parseTools (dOracle dState.idx)) :=
  (runAgent_dispatch_step dOracle dExec 0 dState ⟨"bash", []⟩ []).2.2.2 (by decide)

/-- C3.  Every handler of the first variant (`readFile`, `writeFile`,
`bash`, `grep`, `glob`) is a total function of its inputs and oracles:
when the underlying platform operation throws, the handler catches it,
stringifies it, and reports the same error-prefixed string through both
the `aiOutput` and the `userOutput` channel of a normal `ToolResult`. -/
theorem handlers_catch_errors
    (readOp : String → Except String (String × Nat))
    (writeOp : String → String → Except String Nat)
    (spawnOp : String → Except String String)
    (f c pat dir cmd e : String) :
    (readOp f = Except.error e →
      readFile readOp f =
        ⟨"Error reading " ++ f ++ ": " ++ e,
          "❌ " ++ ("Error reading " ++ f ++ ": " ++ e)⟩)
    ∧ (writeOp f (processContent c) = Except.error e →
      writeFile writeOp f c =
        ⟨"Error writing " ++ f ++ ": " ++ e,
          "❌ " ++ ("Error writing " ++ f ++ ": " ++ e)⟩)
    ∧ (spawnOp cmd = Except.error e →
      bash spawnOp cmd =
        ⟨"Error executing command: " ++ e,
          "❌ " ++ ("Error executing command: " ++ e)⟩)
    ∧ (spawnOp (grepCommand pat dir) = Except.error e →
      grep spawnOp pat dir =
        ⟨"Error searching pattern \"" ++ pat ++ "\": " ++ e,
          "❌ " ++ ("Error searching pattern \"" ++ pat ++ "\": " ++ e)⟩)
    ∧ (spawnOp (globCommand pat dir) = Except.error e →
      glob spawnOp pat dir =
        ⟨"Error searching files with pattern \"" ++ pat ++ "\": " ++ e,
          "❌ " ++ ("Error searching files with pattern \"" ++ pat ++ "\": " ++ e)⟩) := by
  refine ⟨fun h => ?_, fun h => ?_, fun h => ?_, fun h => ?_, fun h => ?_⟩
  · simp [readFile, h]
  · simp [writeFile, h]
  · simp [bash, h]
  · simp [grep, h]
  · simp [glob, h]

/-- Witness for C3: each handler applied to a concrete failing oracle. -/
theorem handlers_catch_errors_witness :
    readFile failReadOp "a.txt" =
      ⟨"Error reading a.txt: ENOENT", "❌ " ++ "Error reading a.txt: ENOENT"⟩
    ∧ writeFile failWriteOp "a.txt" "c" =
      ⟨"Error writing a.txt: EACCES", "❌ " ++ "Error writing a.txt: EACCES"⟩
    ∧ bash failSpawnOp "ls" =
      ⟨"Error executing command: spawn failed",
        "❌ " ++ "Error executing command: spawn failed"⟩
    ∧ grep failSpawnOp "p" "." =
      ⟨"Error searching pattern \"p\": spawn failed",
        "❌ " ++ "Error searching pattern \"p\": spawn failed"⟩
    ∧ glob failSpawnOp "*.js" "." =
      ⟨"Error searching files with pattern \"*.js\": spawn failed",
        "❌ " ++ "Error searching files with pattern \"*.js\": spawn failed"⟩ :=
  ⟨(handlers_catch_errors failReadOp failWriteOp failSpawnOp "a.txt" "c" "p" "." "ls"
      "ENOENT").1 rfl,
    (handlers_catch_errors failReadOp failWriteOp failSpawnOp "a.txt" "c" "p" "." "ls"
      "EACCES").2.1 rfl,
    (handlers_catch_errors failReadOp failWriteOp failSpawnOp "a.txt" "c" "p" "." "ls"
      "spawn failed").2.2.1 rfl,
    (handlers_catch_errors failReadOp failWriteOp failSpawnOp "a.txt" "c" "p" "." "ls"
      "spawn failed").2.2.2.1 rfl,
    (handlers_catch_errors failReadOp failWriteOp failSpawnOp "a.txt" "c" "*.js" "."
      "ls" "spawn failed").2.2.2.2 rfl⟩

/-- C6.  The `writefile` handler does not pass the captured content to the
file write verbatim: it unescapes it — every `\n` becomes a newline, then
every `\t` a tab, then every `\"` a double quote, in that order — and its
`aiOutput` reports the processed content as the new file content. -/
theorem writeFile_unescapes :
    (∀ (writeOp : String → String → Except String Nat) (f c : String) (size : Nat),
      writeOp f (processContent c) = Except.ok size →
      writeFile writeOp f c =
        ⟨"File " ++ f ++ " written successfully. New content: " ++ processContent c,
          "✅ " ++ f ++ " written (" ++ formatFileSize size ++ ")"⟩)
    ∧ processContent = (fun c =>
        replaceAllStr (replaceAllStr (replaceAllStr c "\\n" "\n") "\\t" "\t")
          "\\\"" "\"")
    ∧ processContent "line1\\nline2\\t\\\"q\\\"" = "line1\nline2\t\"q\""
    ∧ processContent "a\\nb" ≠ "a\\nb" := by
  refine ⟨fun writeOp f c size h => ?_, rfl, by decide, by decide⟩
  simp [writeFile, h]

/-- Witness for C6 at a concrete succeeding write oracle. -/
theorem writeFile_unescapes_witness :
    writeFile okWriteOp "f.txt" "a\\nb" =
      ⟨"File f.txt written successfully. New content: " ++ processContent "a\\nb",
        "✅ f.txt written (" ++ formatFileSize 5 ++ ")"⟩ :=
  writeFile_unescapes.1 okWriteOp "f.txt" "a\\nb" 5 rfl

/-- C7.  The interactive CLI loop stops exactly at the sentinel line
`"exit"`: on `"exit"` it emits the goodbye line and breaks; on a blank
line it re-prompts without running the agent; on any other line it runs
the agent and re-prompts; and whenever the loop returns at all, some
prompted line was `"exit"`. -/
theorem startAgent_sentinel :
    (∀ (inputs : Nat → Option String) agent fuel k (st : AgentState) outs,
      inputs k = some "exit" →
      startAgentLoop inputs agent (fuel + 1) k st outs =
        some (st, outs ++ ["Goodbye!"]))
    ∧ (∀ (inputs : Nat → Option String) agent fuel k (st : AgentState) outs,
      inputs k = some "" →
      startAgentLoop inputs agent (fuel + 1) k st outs =
        startAgentLoop inputs agent fuel (k + 1) st outs)
    ∧ (∀ (inputs : Nat → Option String) agent fuel k (st : AgentState) outs s,
      inputs k = some s → s ≠ "exit" → s ≠ "" →
      startAgentLoop inputs agent (fuel + 1) k st outs =
        (match agent s st with
          | some st2 => startAgentLoop inputs agent fuel (k + 1) st2 outs
          | none => none))
    ∧ (∀ (inputs : Nat → Option String) agent fuel k (st st2 : AgentState) outs outs2,
      startAgentLoop inputs agent fuel k st outs = some (st2, outs2) →
      ∃ j, k ≤ j ∧ inputs j = some "exit") := by
  refine ⟨?_, ?_, ?_, ?_⟩
  · intro inputs agent fuel k st outs h
    simp [startAgentLoop, h]
  · intro inputs agent fuel k st outs h
    simp [startAgentLoop, h]
  · intro inputs agent fuel k st outs s h hx he
    simp [startAgentLoop, h, hx, he]
  · intro inputs agent fuel
    induction fuel with
    | zero =>
      intro k st st2 outs outs2 h
      simp [startAgentLoop] at h
    | succ f ih =>
      intro k st st2 outs outs2 h
      by_cases hx : inputs k = some "exit"
      · exact ⟨k, le_refl k, hx⟩
      · simp only [startAgentLoop, if_neg hx] at h
        split at h
        · split at h
          · obtain ⟨j, hj, hje⟩ := ih (k + 1) _ st2 outs outs2 h
            exact ⟨j, by omega, hje⟩
          · split at h
            · obtain ⟨j, hj, hje⟩ := ih (k + 1) _ st2 outs outs2 h
              exact ⟨j, by omega, hje⟩
            · cases h
        · obtain ⟨j, hj, hje⟩ := ih (k + 1) _ st2 outs outs2 h
          exact ⟨j, by omega, hje⟩

/-- Witness for C7 at a concrete input stream. -/
theorem startAgent_sentinel_witness :
    (startAgentLoop cliInputs cliAgent 1 2 cliState [] =
      some (cliState, ["Goodbye!"]))
    ∧ (startAgentLoop cliInputs cliAgent 3 0 cliState [] =
        startAgentLoop cliInputs cliAgent 2 1 cliState [])
    ∧ (∃ j, 0 ≤ j ∧ cliInputs j = some "exit") :=
  ⟨by
      have h := startAgent_sentinel.1 cliInputs cliAgent 0 2 cliState [] rfl
      simpa using h,
    startAgent_sentinel.2.1 cliInputs cliAgent 2 0 cliState [] rfl,
    startAgent_sentinel.2.2.2 cliInputs cliAgent 3 0 cliState cliState []
      ["Goodbye!"] (by decide)⟩

/-- Helper: if every recursive agent call only extends the message list,
so does the whole dispatch loop. -/
theorem runTools_extends (ra : AgentState → Option AgentState)
    (exec : ToolCall → ToolResult)
    (hra : ∀ s s2, ra s = some s2 → s.messages <+: s2.messages) :
    ∀ (ts : List ToolCall) (st st2 : AgentState),
      runTools ra exec st ts = some st2 → st.messages <+: st2.messages := by
  intro ts
  induction ts with
  | nil =>
    intro st st2 h
    simp only [runTools] at h
    cases h
    exact List.prefix_rfl
  | cons t rest ih =>
    intro st st2 h
    simp only [runTools] at h
    cases hra2 : ra ⟨st.messages ++ [toolMessage t (exec t).aiOutput], st.idx⟩ with
    | none => rw [hra2] at h; cases h
    | some s1 =>
      rw [hra2] at h
      have h1 := hra _ _ hra2
      have h2 := ih _ _ h
      exact (List.prefix_append st.messages [toolMessage t (exec t).aiOutput]).trans
        (List.IsPrefix.trans h1 h2)

/-- Helper: a successful dispatch loop on a nonempty tool list contains a
successful recursive agent call on the state extended with the first
tool's synthetic message. -/
theorem runTools_cons_head (ra : AgentState → Option AgentState)
    (exec : ToolCall → ToolResult) (st : AgentState) (t : ToolCall)
    (rest : List ToolCall) (st2 : AgentState) :
    runTools ra exec st (t :: rest) = some st2 →
    ∃ s1, ra ⟨st.messages ++ [toolMessage t (exec t).aiOutput], st.idx⟩ = some s1 := by
  intro h
  simp only [runTools] at h
  cases hra : ra ⟨st.messages ++ [toolMessage t (exec t).aiOutput], st.idx⟩ with
  | none => rw [hra] at h; cases h
  | some s1 => exact ⟨s1, rfl⟩

/-- C4.  The conversation history is append-only: whatever a `runAgent`
call does — pushing the user turn, pushing tool-result turns, recursive
continuations — the message list of the resulting state is an extension of
the message list of the starting state; no reachable step modifies,
removes, or truncates an appended message. -/
theorem runAgent_append_only (oracle : Nat → String)
    (exec : ToolCall → ToolResult) :
    ∀ (fuel : Nat) (st : AgentState) (input : Option String) (st2 : AgentState),
      runAgentAux oracle exec fuel st input = some st2 →
      st.messages <+: st2.messages := by
  intro fuel
  induction fuel with
  | zero => intro st input st2 h; simp [runAgentAux] at h
  | succ f ih =>
    intro st input st2 h
    cases input with
    | none =>
      simp only [runAgentAux] at h
      split at h
      · cases h; exact List.prefix_rfl
      · exact runTools_extends _ exec (fun s s2 hs => ih s none s2 hs) _
          ⟨st.messages, st.idx + 1⟩ st2 h
    | some s =>
      simp only [runAgentAux] at h
      split at h
      · cases h; exact List.prefix_append _ _
      · have h2 := runTools_extends _ exec (fun s1 s2 hs => ih s1 none s2 hs) _
          ⟨st.messages ++ [⟨Role.user, s⟩], st.idx + 1⟩ st2 h
        exact (List.prefix_append _ _).trans h2

/-- Witness for C4 at a concrete tool-free run. -/
theorem runAgent_append_only_witness :
    (runAgentAux apOracle dExec 1 apState (some "hi") =
      some ⟨[⟨Role.system, "sys"⟩, ⟨Role.user, "hi"⟩], 1⟩)
    ∧ apState.messages <+: [⟨Role.system, "sys"⟩, ⟨Role.user, "hi"⟩] :=
  ⟨by decide,
    runAgent_append_only apOracle dExec 1 apState (some "hi")
      ⟨[⟨Role.system, "sys"⟩, ⟨Role.user, "hi"⟩], 1⟩ (by decide)⟩

/-- C5 (amended).  If the dispatch recursion terminates, then some
response drawn from the model oracle parsed to an empty tool list; the
code contains no step limit, cycle detection, or budget, so nothing else
can end the recursion. -/
theorem runAgent_terminates_only_if_toolfree (oracle : Nat → String)
    (exec : ToolCall → ToolResult) :
    ∀ (fuel : Nat) (st : AgentState) (input : Option String) (st2 : AgentState),
      runAgentAux oracle exec fuel st input = some st2 →
      ∃ i, parseTools (oracle i) = [] := by
  intro fuel
  induction fuel with
  | zero => intro st input st2 h; simp [runAgentAux] at h
  | succ f ih =>
    intro st input st2 h
    cases input with
    | none =>
      simp only [runAgentAux] at h
      split at h
      · next hts => exact ⟨st.idx, hts⟩
      · next hts =>
        cases hp : parseTools (oracle st.idx) with
        | nil => exact ⟨st.idx, hp⟩
        | cons t rest =>
          rw [hp] at h
          obtain ⟨s1, hs1⟩ := runTools_cons_head _ exec _ t rest st2 h
          exact ih _ none _ hs1
    | some s =>
      simp only [runAgentAux] at h
      split at h
      · next hts => exact ⟨st.idx, hts⟩
      · next hts =>
        cases hp : parseTools (oracle st.idx) with
        | nil => exact ⟨st.idx, hp⟩
        | cons t rest =>
          rw [hp] at h
          obtain ⟨s1, hs1⟩ := runTools_cons_head _ exec _ t rest st2 h
          exact ih _ none _ hs1

/-- Witness for the amended C5 at a concrete terminating run. -/
theorem runAgent_terminates_only_if_toolfree_witness :
    (runAgentAux apOracle dExec 1 apState (some "hi") =
      some ⟨[⟨Role.system, "sys"⟩, ⟨Role.user, "hi"⟩], 1⟩)
    ∧ ∃ i, parseTools (apOracle i) = [] :=
  ⟨by decide,
    runAgent_terminates_only_if_toolfree apOracle dExec 1 apState (some "hi")
      ⟨[⟨Role.system, "sys"⟩, ⟨Role.user, "hi"⟩], 1⟩ (by decide)⟩

/-- Helper: with the counterexample oracle, every agent call starting at
response index 2 or later diverges — each response requests one more
tool. -/
theorem cex_diverges_high :
    ∀ (fuel : Nat) (st : AgentState), 2 ≤ st.idx →
      runAgentAux cexOracle cexExec fuel st none = none := by
  intro fuel
  induction fuel with
  | zero => intro st h2; rfl
  | succ f ih =>
    intro st h2
    have ho : cexOracle st.idx = "<readfile file=\"a\"/>" := by
      obtain ⟨k, hk⟩ : ∃ k, st.idx = k + 2 := ⟨st.idx - 2, by omega⟩
      rw [hk]; rfl
    simp only [runAgentAux, ho]
    rw [show parseTools "<readfile file=\"a\"/>" =
      [⟨"readfile", [("file", "a")]⟩] from by decide]
    rw [if_neg (by simp)]
    have hih := ih ⟨st.messages ++
      [toolMessage ⟨"readfile", [("file", "a")]⟩
        (cexExec ⟨"readfile", [("file", "a")]⟩).aiOutput], st.idx + 1⟩
      (by simp; omega)
    simp only [runTools, hih]

/-- Helper: with the counterexample oracle, an agent call at response
index 1 returns after one model call, since that response is tool-free. -/
theorem cex_mid (g : Nat) (ms : List Message) :
    runAgentAux cexOracle cexExec (g + 1) ⟨ms, 1⟩ none = some ⟨ms, 2⟩ := by
  simp only [runAgentAux]
  rw [show parseTools (cexOracle 1) = [] from by decide]
  simp

/-- Counterexample to C5 as stated: the stream contains a tool-free
response (index 1), yet the recursion never terminates — the first
response requested a second tool, and after the tool-free leaf the loop
resumes with that sibling, whose recursion consumes only responses with
tools forever.  Termination is therefore not equivalent to the existence
of a tool-free response. -/
theorem runAgent_termination_iff_cex :
    parseTools (cexOracle 1) = []
    ∧ agentDiverges cexOracle cexExec cexStart (some "go")
    ∧ ¬ agentTerminates cexOracle cexExec cexStart (some "go") := by
  have hdiv : agentDiverges cexOracle cexExec cexStart (some "go") := by
    intro fuel
    cases fuel with
    | zero => rfl
    | succ f =>
      simp only [runAgentAux, cexStart]
      rw [show parseTools (cexOracle 0) =
        [⟨"readfile", [("file", "a")]⟩, ⟨"readfile", [("file", "b")]⟩] from by decide]
      rw [if_neg (by simp)]
      cases f with
      | zero => decide
      | succ g =>
        simp only [runTools]
        rw [show ([] : List Message) ++ [⟨Role.user, "go"⟩] = [⟨Role.user, "go"⟩]
          from by simp]
        rw [show (0 : Nat) + 1 = 1 from rfl]
        rw [cex_mid g _]
        simp only [runTools]
        rw [cex_diverges_high (g + 1) _ (by simp)]
  exact ⟨by decide, hdiv, fun ⟨fuel, st2, h⟩ => by rw [hdiv fuel] at h; cases h⟩

/-- Helper: every element of the `readfile` group is a `readfile` call
with a single `file` parameter. -/
theorem mem_readGroup_shape {text : String} {t : ToolCall}
    (h : t ∈ readGroup text) :
    t.name = "readfile" ∧ ∃ f, t.params = [("file", f)] := by
  simp only [readGroup, List.mem_map] at h
  obtain ⟨pc, _, rfl⟩ := h
  exact ⟨rfl, pc.2, rfl⟩

/-- Helper: shape of the `writefile` group elements. -/
theorem mem_writeGroup_shape {text : String} {t : ToolCall}
    (h : t ∈ writeGroup text) :
    t.name = "writefile" ∧ ∃ f c, t.params = [("file", f), ("content", c)] := by
  simp only [writeGroup, List.mem_map] at h
  obtain ⟨pc, _, rfl⟩ := h
  exact ⟨rfl, pc.2.1, pc.2.2, rfl⟩

/-- Helper: shape of the `bash` group elements. -/
theorem mem_bashGroup_shape {text : String} {t : ToolCall}
    (h : t ∈ bashGroup text) :
    t.name = "bash" ∧ ∃ c, t.params = [("command", c)] := by
  simp only [bashGroup, List.mem_map] at h
  obtain ⟨pc, _, rfl⟩ := h
  exact ⟨rfl, pc.2, rfl⟩

/-- Helper: shape of the `get_tweet` group elements. -/
theorem mem_tweetGroup_shape {text : String} {t : ToolCall}
    (h : t ∈ tweetGroup text) :
    t.name = "get_tweet" ∧ ∃ c, t.params = [("tweet_id", c)] := by
  simp only [tweetGroup, List.mem_map] at h
  obtain ⟨pc, _, rfl⟩ := h
  exact ⟨rfl, pc.2, rfl⟩

/-- Helper: shape of the `grep` group elements; the `dir` key is always
present. -/
theorem mem_grepGroup_shape {text : String} {t : ToolCall}
    (h : t ∈ grepGroup text) :
    t.name = "grep" ∧ ∃ p d, t.params = [("pattern", p), ("dir", d)] := by
  simp only [grepGroup, List.mem_map] at h
  obtain ⟨pc, _, rfl⟩ := h
  exact ⟨rfl, pc.2.1, jsOr pc.2.2 ".", rfl⟩

/-- Helper: shape of the `glob` group elements; the `dir` key is always
present. -/
theorem mem_globGroup_shape {text : String} {t : ToolCall}
    (h : t ∈ globGroup text) :
    t.name = "glob" ∧ ∃ p d, t.params = [("pattern", p), ("dir", d)] := by
  simp only [globGroup, List.mem_map] at h
  obtain ⟨pc, _, rfl⟩ := h
  exact ⟨rfl, pc.2.1, jsOr pc.2.2 ".", rfl⟩

/-- Helper: a list all of whose elements share one registry rank is
pairwise rank-monotone. -/
theorem pairwise_const_rank {l : List ToolCall} {c : Nat}
    (h : ∀ x ∈ l, rankOf x.name = c) :
    l.Pairwise fun a b => rankOf a.name ≤ rankOf b.name := by
  induction l with
  | nil => exact List.Pairwise.nil
  | cons a l ih =>
    refine List.Pairwise.cons (fun b hb => ?_)
      (ih fun x hx => h x (List.mem_cons_of_mem a hx))
    rw [h a (List.mem_cons_self a l), h b (List.mem_cons_of_mem a hb)]

/-- Helper: every recorded match position of a scan is at least the
starting position. -/
theorem scanPosAux_ge {α : Type} (m : List Char → Option (α × List Char)) :
    ∀ (fuel i : Nat) (cs : List Char) (p : Nat × α),
      p ∈ scanPosAux m fuel i cs → i ≤ p.1 := by
  intro fuel
  induction fuel with
  | zero => intro i cs p h; simp [scanPosAux] at h
  | succ f ih =>
    intro i cs p h
    cases cs with
    | nil => simp [scanPosAux] at h
    | cons c t =>
      simp only [scanPosAux] at h
      cases hm : m (c :: t) with
      | none =>
        rw [hm] at h
        exact le_trans (by omega) (ih _ _ _ h)
      | some ar =>
        obtain ⟨a, rest⟩ := ar
        rw [hm] at h
        rcases List.mem_cons.1 h with rfl | h2
        · exact le_refl i
        · exact le_trans (by omega) (ih _ _ _ h2)

/-- Helper: the match positions of one scan are strictly increasing, i.e.
each tool kind's matches come out in textual order. -/
theorem scanPosAux_pairwise {α : Type} (m : List Char → Option (α × List Char)) :
    ∀ (fuel i : Nat) (cs : List Char),
      (scanPosAux m fuel i cs).Pairwise fun p q => p.1 < q.1 := by
  intro fuel
  induction fuel with
  | zero => intro i cs; simp [scanPosAux]
  | succ f ih =>
    intro i cs
    cases cs with
    | nil => simp [scanPosAux]
    | cons c t =>
      simp only [scanPosAux]
      cases hm : m (c :: t) with
      | none => exact ih _ _
      | some ar =>
        obtain ⟨a, rest⟩ := ar
        refine List.Pairwise.cons (fun q hq => ?_) (ih _ _)
        have h1 := scanPosAux_ge m f _ _ q hq
        have h2 : (if rest.length < t.length + 1 then rest else t).length ≤ t.length := by
          by_cases hr : rest.length < t.length + 1
          · simp only [if_pos hr]; omega
          · simp only [if_neg hr]; omega
        omega

/-- C2.  `parseTools` groups its result by tool kind in the fixed registry
insertion order — all `readfile` matches first, then `writefile`, `bash`,
`get_tweet`, `grep`, `glob` — with each kind's matches in textual order
within its group, and a cross-tool order that does not depend on where the
tags appear in the text (witnessed by a text whose `bash` tag comes
first but is parsed after the `readfile` tag). -/
theorem parseTools_registry_order :
    (∀ text : String,
      parseTools text =
        readGroup text ++ writeGroup text ++ bashGroup text ++
          tweetGroup text ++ grepGroup text ++ globGroup text)
    ∧ (∀ text : String,
      (parseTools text).Pairwise fun a b => rankOf a.name ≤ rankOf b.name)
    ∧ (∀ (α : Type) (m : List Char → Option (α × List Char)) (cs : List Char),
      (scanPos m cs).Pairwise fun p q => p.1 < q.1)
    ∧ parseTools "<bash command=\"ls\"/> and <readfile file=\"a.txt\"/>" =
        [⟨"readfile", [("file", "a.txt")]⟩, ⟨"bash", [("command", "ls")]⟩] := by
  refine ⟨fun _ => rfl, fun text => ?_, fun α m cs => scanPosAux_pairwise m _ _ _,
    by decide⟩
  have u1 : ∀ a ∈ readGroup text, rankOf a.name ≤ 0 := fun a ha => by
    rw [(mem_readGroup_shape ha).1]; decide
  have u2 : ∀ a ∈ readGroup text ++ writeGroup text, rankOf a.name ≤ 1 := by
    intro a ha
    rcases List.mem_append.1 ha with ha | ha
    · exact le_trans (u1 a ha) (by omega)
    · rw [(mem_writeGroup_shape ha).1]; decide
  have u3 : ∀ a ∈ readGroup text ++ writeGroup text ++ bashGroup text,
      rankOf a.name ≤ 2 := by
    intro a ha
    rcases List.mem_append.1 ha with ha | ha
    · exact le_trans (u2 a ha) (by omega)
    · rw [(mem_bashGroup_shape ha).1]; decide
  have u4 : ∀ a ∈ readGroup text ++ writeGroup text ++ bashGroup text ++
      tweetGroup text, rankOf a.name ≤ 3 := by
    intro a ha
    rcases List.mem_append.1 ha with ha | ha
    · exact le_trans (u3 a ha) (by omega)
    · rw [(mem_tweetGroup_shape ha).1]; decide
  have u5 : ∀ a ∈ readGroup text ++ writeGroup text ++ bashGroup text ++
      tweetGroup text ++ grepGroup text, rankOf a.name ≤ 4 := by
    intro a ha
    rcases List.mem_append.1 ha with ha | ha
    · exact le_trans (u4 a ha) (by omega)
    · rw [(mem_grepGroup_shape ha).1]; decide
  unfold parseTools
  refine List.pairwise_append.2 ⟨?_, pairwise_const_rank
    (fun x hx => by rw [(mem_globGroup_shape hx).1]), ?_⟩
  · refine List.pairwise_append.2 ⟨?_, pairwise_const_rank
      (fun x hx => by rw [(mem_grepGroup_shape hx).1]), ?_⟩
    · refine List.pairwise_append.2 ⟨?_, pairwise_const_rank
        (fun x hx => by rw [(mem_tweetGroup_shape hx).1]), ?_⟩
      · refine List.pairwise_append.2 ⟨?_, pairwise_const_rank
          (fun x hx => by rw [(mem_bashGroup_shape hx).1]), ?_⟩
        · exact List.pairwise_append.2
            ⟨pairwise_const_rank (fun x hx => by rw [(mem_readGroup_shape hx).1]),
              pairwise_const_rank (fun x hx => by rw [(mem_writeGroup_shape hx).1]),
              fun a ha b hb => by
                rw [(mem_readGroup_shape ha).1, (mem_writeGroup_shape hb).1]
                decide⟩
        · intro a ha b hb
          rw [(mem_bashGroup_shape hb).1]
          exact le_trans (u2 a ha) (by decide)
      · intro a ha b hb
        rw [(mem_tweetGroup_shape hb).1]
        exact le_trans (u3 a ha) (by decide)
    · intro a ha b hb
      rw [(mem_grepGroup_shape hb).1]
      exact le_trans (u4 a ha) (by decide)
  · intro a ha b hb
    rw [(mem_globGroup_shape hb).1]
    exact le_trans (u5 a ha) (by decide)

/-- Oracle bundle whose operations all fail, used by concrete witnesses. -/
def failSysOps : SysOps :=
  ⟨failReadOp, failWriteOp, failSpawnOp⟩

/-- C9 (implicit).  Every tool call produced by `parseTools` carries one
of the six registered names, so `executeTool` applied to a parser-produced
call never reaches its final `Unknown tool` fallback and always dispatches
to a real handler; moreover every parsed `grep` or `glob` call has a `dir`
entry in its params (the parser fills in `"."` when the tag had no `dir`
attribute, witnessed by the final conjunct). -/
theorem parseTools_names_safe :
    (∀ (text : String) (t : ToolCall), t ∈ parseTools text →
      (t.name = "readfile" ∨ t.name = "writefile" ∨ t.name = "bash" ∨
        t.name = "get_tweet" ∨ t.name = "grep" ∨ t.name = "glob")
      ∧ (∀ ops : SysOps, (executeToolB ops t).2 = false)
      ∧ ((t.name = "grep" ∨ t.name = "glob") →
          ∃ p d, t.params = [("pattern", p), ("dir", d)]))
    ∧ parseTools "<grep pattern=\"x\"/>" =
        [⟨"grep", [("pattern", "x"), ("dir", ".")]⟩] := by
  refine ⟨?_, by decide⟩
  intro text t ht
  unfold parseTools at ht
  rcases List.mem_append.1 ht with ht | hglob
  rcases List.mem_append.1 ht with ht | hgrep
  rcases List.mem_append.1 ht with ht | htweet
  rcases List.mem_append.1 ht with ht | hbash
  rcases List.mem_append.1 ht with hread | hwrite
  · obtain ⟨hn, f, hp⟩ := mem_readGroup_shape hread
    refine ⟨Or.inl hn, fun ops => by simp [executeToolB, hn], fun hc => ?_⟩
    rcases hc with hc | hc <;> (rw [hn] at hc; exact absurd hc (by decide))
  · obtain ⟨hn, f, c, hp⟩ := mem_writeGroup_shape hwrite
    refine ⟨Or.inr (Or.inl hn), fun ops => by simp [executeToolB, hn], fun hc => ?_⟩
    rcases hc with hc | hc <;> (rw [hn] at hc; exact absurd hc (by decide))
  · obtain ⟨hn, c, hp⟩ := mem_bashGroup_shape hbash
    refine ⟨Or.inr (Or.inr (Or.inl hn)), fun ops => by simp [executeToolB, hn],
      fun hc => ?_⟩
    rcases hc with hc | hc <;> (rw [hn] at hc; exact absurd hc (by decide))
  · obtain ⟨hn, c, hp⟩ := mem_tweetGroup_shape htweet
    refine ⟨Or.inr (Or.inr (Or.inr (Or.inl hn))),
      fun ops => by simp [executeToolB, hn], fun hc => ?_⟩
    rcases hc with hc | hc <;> (rw [hn] at hc; exact absurd hc (by decide))
  · obtain ⟨hn, p, d, hp⟩ := mem_grepGroup_shape hgrep
    exact ⟨Or.inr (Or.inr (Or.inr (Or.inr (Or.inl hn)))),
      fun ops => by simp [executeToolB, hn], fun _ => ⟨p, d, hp⟩⟩
  · obtain ⟨hn, p, d, hp⟩ := mem_globGroup_shape hglob
    exact ⟨Or.inr (Or.inr (Or.inr (Or.inr (Or.inr hn)))),
      fun ops => by simp [executeToolB, hn], fun _ => ⟨p, d, hp⟩⟩

/-- Witness for C9 at a concrete parsed `grep` call without a `dir`
attribute. -/
theorem parseTools_names_safe_witness :
    ((⟨"grep", [("pattern", "x"), ("dir", ".")]⟩ : ToolCall).name = "readfile" ∨
      (⟨"grep", [("pattern", "x"), ("dir", ".")]⟩ : ToolCall).name = "writefile" ∨
      (⟨"grep", [("pattern", "x"), ("dir", ".")]⟩ : ToolCall).name = "bash" ∨
      (⟨"grep", [("pattern", "x"), ("dir", ".")]⟩ : ToolCall).name = "get_tweet" ∨
      (⟨"grep", [("pattern", "x"), ("dir", ".")]⟩ : ToolCall).name = "grep" ∨
      (⟨"grep", [("pattern", "x"), ("dir", ".")]⟩ : ToolCall).name = "glob")
    ∧ (executeToolB failSysOps ⟨"grep", [("pattern", "x"), ("dir", ".")]⟩).2 = false
    ∧ ∃ p d, (⟨"grep", [("pattern", "x"), ("dir", ".")]⟩ : ToolCall).params =
        [("pattern", p), ("dir", d)] := by
  have h := parseTools_names_safe.1 "<grep pattern=\"x\"/>"
    ⟨"grep", [("pattern", "x"), ("dir", ".")]⟩ (by decide)
  exact ⟨h.1, h.2.1 failSysOps, h.2.2 (Or.inl rfl)⟩

/-- Helper: the fueled base-1024 logarithm brackets its argument between
consecutive powers whenever the fuel covers the argument. -/
theorem ilogAux_spec :
    ∀ (fuel n : Nat), 1 ≤ n → n ≤ fuel →
      1024 ^ ilogAux fuel n ≤ n ∧ n < 1024 ^ (ilogAux fuel n + 1) := by
  intro fuel
  induction fuel with
  | zero => intro n h1 h2; omega
  | succ f ih =>
    intro n h1 h2
    simp only [ilogAux]
    by_cases hn : n < 1024
    · simp only [if_pos hn]
      constructor
      · simpa using h1
      · simpa using hn
    · simp only [if_neg hn]
      have hd1 : 1 ≤ n / 1024 := by omega
      have hdf : n / 1024 ≤ f := by
        have : n / 1024 < n := Nat.div_lt_self (by omega) (by norm_num)
        omega
      obtain ⟨hl, hu⟩ := ih (n / 1024) hd1 hdf
      constructor
      · calc 1024 ^ (ilogAux f (n / 1024) + 1)
            = 1024 ^ ilogAux f (n / 1024) * 1024 := by rw [pow_succ]
          _ ≤ (n / 1024) * 1024 := Nat.mul_le_mul_right _ hl
          _ ≤ n := Nat.div_mul_le_self n 1024
      · calc n < (n / 1024 + 1) * 1024 := by omega
          _ ≤ 1024 ^ (ilogAux f (n / 1024) + 1) * 1024 :=
              Nat.mul_le_mul_right _ (by omega)
          _ = 1024 ^ (ilogAux f (n / 1024) + 1 + 1) := (pow_succ _ _).symm

/-- Helper: the executable unit index agrees with the mathematical
`Nat.log`, i.e. with `Math.floor(Math.log(bytes)/Math.log(1024))` under
exact logarithms. -/
theorem ilog1024_eq_log (n : Nat) (h : 1 ≤ n) : ilog1024 n = Nat.log 1024 n := by
  obtain ⟨hl, hu⟩ := ilogAux_spec n n h (le_refl n)
  exact (Nat.log_eq_of_pow_le_of_lt_pow hl hu).symm

/-- Helper: single-digit naturals print with one character. -/
theorem len_toString_lt10 : ∀ k : Nat, k < 10 → (toString k).length = 1 := by
  decide

/-- Helper: two-digit naturals print with two characters. -/
theorem len_toString_lt100 : ∀ k : Nat, k < 100 → 10 ≤ k → (toString k).length = 2 := by
  decide

/-- Helper: a zero-padded single digit prints with two characters. -/
theorem len_pad_lt10 : ∀ k : Nat, k < 10 → ("0" ++ toString k).length = 2 := by
  decide

/-- Helper: the rendered two-decimal number is an integer part optionally
followed by a dot and at most two fractional characters. -/
theorem renderFixed2_shape (m : Nat) :
    (∃ a : Nat, renderFixed2 m = toString a) ∨
      (∃ (a : Nat) (s : String), renderFixed2 m = toString a ++ "." ++ s
        ∧ s.length ≤ 2 ∧ s ≠ "") := by
  unfold renderFixed2
  by_cases h0 : m % 100 = 0
  · exact Or.inl ⟨m / 100, by simp [h0]⟩
  · by_cases h10 : m % 100 % 10 = 0
    · refine Or.inr ⟨m / 100, toString (m % 100 / 10), by simp [h0, h10], ?_, ?_⟩
      · have : m % 100 / 10 < 10 := by omega
        rw [len_toString_lt10 _ this]
        omega
      · intro hs
        have h1 := len_toString_lt10 (m % 100 / 10) (by omega)
        rw [hs] at h1
        simp at h1
    · by_cases hlt : m % 100 < 10
      · refine Or.inr ⟨m / 100, "0" ++ toString (m % 100),
          by simp only [if_neg h0, if_neg h10, if_pos hlt, String.append_assoc], ?_, ?_⟩
        · rw [len_pad_lt10 _ hlt]
        · intro hs
          have h1 := len_pad_lt10 (m % 100) hlt
          rw [hs] at h1
          simp at h1
      · refine Or.inr ⟨m / 100, toString (m % 100), by simp [h0, h10, hlt], ?_, ?_⟩
        · rw [len_toString_lt100 (m % 100) (by omega) (by omega)]
        · intro hs
          have h1 := len_toString_lt100 (m % 100) (by omega) (by omega)
          rw [hs] at h1
          simp at h1

/-- C10 (implicit).  `formatFileSize` is total on every size the file API
can report: `formatFileSize 0 = "0 B"`; for `1 ≤ bytes < 1024^4` the unit
index `⌊log bytes / log 1024⌋` stays within `[0, 3]`, so the result is a
number with at most two decimals followed by one of `B`, `KB`, `MB`, `GB`;
and for `bytes ≥ 1024^4` the index leaves the four-element `sizes` array
(JavaScript then renders the unit as `undefined`). -/
theorem formatFileSize_spec :
    formatFileSize 0 = "0 B"
    ∧ (∀ b : Nat, 1 ≤ b → b < 1024 ^ 4 →
        Nat.log 1024 b ≤ 3
        ∧ ∃ mant u, u ∈ sizesArr ∧ formatFileSize b = mant ++ " " ++ u
          ∧ ((∃ a : Nat, mant = toString a) ∨
              (∃ (a : Nat) (s : String), mant = toString a ++ "." ++ s
                ∧ s.length ≤ 2 ∧ s ≠ "")))
    ∧ (∀ b : Nat, 1024 ^ 4 ≤ b →
        4 ≤ Nat.log 1024 b ∧ ∃ mant, formatFileSize b = mant ++ " undefined") := by
  refine ⟨rfl, ?_, ?_⟩
  · intro b h1 h2
    have hlog : Nat.log 1024 b < 4 := Nat.log_lt_of_lt_pow (by omega) h2
    have hil : ilog1024 b = Nat.log 1024 b := ilog1024_eq_log b h1
    refine ⟨by omega, renderFixed2 (toFixed2Num b (1024 ^ ilog1024 b)),
      sizesArr.getD (ilog1024 b) "undefined", ?_, ?_, renderFixed2_shape _⟩
    · have hi : ilog1024 b ≤ 3 := by omega
      set i := ilog1024 b with hidef
      interval_cases i <;> decide
    · simp only [formatFileSize, if_neg (by omega : ¬ b = 0)]
  · intro b hb
    have hb1 : 1 ≤ b := le_trans (by norm_num) hb
    have hlog : 4 ≤ Nat.log 1024 b :=
      (Nat.pow_le_iff_le_log (by norm_num) (by omega)).1 hb
    have hil : ilog1024 b = Nat.log 1024 b := ilog1024_eq_log b hb1
    refine ⟨hlog, renderFixed2 (toFixed2Num b (1024 ^ ilog1024 b)), ?_⟩
    have hgetD : sizesArr.getD (ilog1024 b) "undefined" = "undefined" :=
      List.getD_eq_default _ _ (by simp [sizesArr]; omega)
    simp only [formatFileSize, if_neg (by omega : ¬ b = 0), hgetD,
      String.append_assoc]
    rfl

/-- Witness for C10 at the sizes 2048 and 1024^4. -/
theorem formatFileSize_spec_witness :
    ((1 : Nat) ≤ 2048 ∧ 2048 < 1024 ^ 4
      ∧ Nat.log 1024 2048 ≤ 3
      ∧ ∃ mant u, u ∈ sizesArr ∧ formatFileSize 2048 = mant ++ " " ++ u
        ∧ ((∃ a : Nat, mant = toString a) ∨
            (∃ (a : Nat) (s : String), mant = toString a ++ "." ++ s
              ∧ s.length ≤ 2 ∧ s ≠ "")))
    ∧ (1024 ^ 4 ≤ (1024 : Nat) ^ 4 ∧ 4 ≤ Nat.log 1024 (1024 ^ 4)
      ∧ ∃ mant, formatFileSize (1024 ^ 4) = mant ++ " undefined") := by
  constructor
  · have h := formatFileSize_spec.2.1 2048 (by norm_num) (by norm_num)
    exact ⟨by norm_num, by norm_num, h.1, h.2⟩
  · have h := formatFileSize_spec.2.2 (1024 ^ 4) (le_refl _)
    exact ⟨le_refl _, h.1, h.2⟩

/-- Helper: `takeWhile` and `dropWhile` split an append at the first
character failing the predicate. -/
theorem takeWhile_append_stop (q : Char → Bool) :
    ∀ (l1 : List Char) (c : Char) (l2 : List Char),
      (∀ x ∈ l1, q x = true) → q c = false →
      (l1 ++ c :: l2).takeWhile q = l1 ∧ (l1 ++ c :: l2).dropWhile q = c :: l2 := by
  intro l1
  induction l1 with
  | nil =>
    intro c l2 _ h2
    simp [List.takeWhile_cons, List.dropWhile_cons, h2]
  | cons a l1 ih =>
    intro c l2 h1 h2
    have ha : q a = true := h1 a (List.mem_cons_self _ _)
    obtain ⟨iht, ihd⟩ := ih c l2 (fun x hx => h1 x (List.mem_cons_of_mem _ hx)) h2
    simp [List.takeWhile_cons, List.dropWhile_cons, ha, iht, ihd]

/-- Helper: the `([^"]*)"` capture on a quote-free payload followed by the
closing quote returns exactly the payload. -/
theorem capStar_eval {p : String} {rest : List Char}
    (hp : ∀ c ∈ p.toList, c ≠ '"') :
    capStar (p.toList ++ '"' :: rest) = some (p, rest) := by
  have key := takeWhile_append_stop (fun c => c ≠ '"') p.toList '"' rest
    (fun x hx => by simp [hp x hx]) (by simp)
  unfold capStar
  rw [key.2, key.1]
  rfl

/-- Helper: scanning an empty character list yields no matches. -/
theorem scanPosAux_nil_list {α : Type} (m : List Char → Option (α × List Char))
    (fuel i : Nat) : scanPosAux m fuel i ([] : List Char) = [] := by
  cases fuel <;> rfl

/-- Helper: a scan over a text none of whose suffixes match is empty. -/
theorem scanPosAux_nil {α : Type} (m : List Char → Option (α × List Char)) :
    ∀ (fuel i : Nat) (cs : List Char), (∀ s, s <:+ cs → m s = none) →
      scanPosAux m fuel i cs = [] := by
  intro fuel
  induction fuel with
  | zero => intro i cs _; rfl
  | succ f ih =>
    intro i cs h
    cases cs with
    | nil => rfl
    | cons c t =>
      simp only [scanPosAux]
      rw [h (c :: t) (List.suffix_refl _)]
      exact ih _ _ (fun s hs => h s (hs.trans ⟨[c], rfl⟩))

/-- Helper: a successful literal step pins the head character. -/
theorem lit_cons_inv {p : Char} {ps cs r : List Char}
    (h : lit (p :: ps) cs = some r) : ∃ t, cs = p :: t := by
  cases cs with
  | nil => simp [lit] at h
  | cons c t =>
    simp only [lit] at h
    by_cases hpc : p = c
    · exact ⟨t, by rw [hpc]⟩
    · rw [if_neg hpc] at h; cases h

/-- Helper: a matcher that starts with a `<`-headed literal only matches
texts starting with `<`. -/
theorem litS_lt_starts {pat : String} {cs r : List Char}
    (h : litS pat cs = some r) (hp : ∃ l, pat.toList = '<' :: l) :
    ∃ t, cs = '<' :: t := by
  obtain ⟨l, hl⟩ := hp
  unfold litS at h
  rw [hl] at h
  exact lit_cons_inv h

/-- Helper: `readfile` matches only start with `<`. -/
theorem matchReadfile_starts :
    ∀ cs r, matchReadfile cs = some r → ∃ t, cs = '<' :: t := by
  intro cs r h
  unfold matchReadfile at h
  obtain ⟨r1, h1, _⟩ := Option.bind_eq_some.1 h
  exact litS_lt_starts h1 ⟨_, rfl⟩

/-- Helper: `writefile` matches only start with `<`. -/
theorem matchWritefile_starts :
    ∀ cs r, matchWritefile cs = some r → ∃ t, cs = '<' :: t := by
  intro cs r h
  unfold matchWritefile at h
  obtain ⟨r1, h1, _⟩ := Option.bind_eq_some.1 h
  exact litS_lt_starts h1 ⟨_, rfl⟩

/-- Helper: `bash` matches only start with `<`. -/
theorem matchBash_starts :
    ∀ cs r, matchBash cs = some r → ∃ t, cs = '<' :: t := by
  intro cs r h
  unfold matchBash at h
  obtain ⟨r1, h1, _⟩ := Option.bind_eq_some.1 h
  exact litS_lt_starts h1 ⟨_, rfl⟩

/-- Helper: `get_tweet` matches only start with `<`. -/
theorem matchGetTweet_starts :
    ∀ cs r, matchGetTweet cs = some r → ∃ t, cs = '<' :: t := by
  intro cs r h
  unfold matchGetTweet at h
  obtain ⟨r1, h1, _⟩ := Option.bind_eq_some.1 h
  exact litS_lt_starts h1 ⟨_, rfl⟩

/-- Helper: `grep` matches only start with `<`. -/
theorem matchGrep_starts :
    ∀ cs r, matchGrep cs = some r → ∃ t, cs = '<' :: t := by
  intro cs r h
  unfold matchGrep at h
  obtain ⟨r1, h1, _⟩ := Option.bind_eq_some.1 h
  exact litS_lt_starts h1 ⟨_, rfl⟩

/-- Helper: `glob` matches only start with `<`. -/
theorem matchGlob_starts :
    ∀ cs r, matchGlob cs = some r → ∃ t, cs = '<' :: t := by
  intro cs r h
  unfold matchGlob at h
  obtain ⟨r1, h1, _⟩ := Option.bind_eq_some.1 h
  exact litS_lt_starts h1 ⟨_, rfl⟩

/-- Helper: `webfetch` matches only start with `<`. -/
theorem matchWebfetch_starts :
    ∀ cs r, matchWebfetch cs = some r → ∃ t, cs = '<' :: t := by
  intro cs r h
  unfold matchWebfetch at h
  obtain ⟨r1, h1, _⟩ := Option.bind_eq_some.1 h
  exact litS_lt_starts h1 ⟨_, rfl⟩

/-- Helper: if a matcher requires a leading `<`, fails on the whole text,
and the text has no `<` past position 0, then no suffix matches. -/
theorem no_suffix_match {α : Type} (m : List Char → Option (α × List Char))
    (hstart : ∀ cs r, m cs = some r → ∃ t, cs = '<' :: t)
    (cs : List Char) (hm : m cs = none) (htail : '<' ∉ cs.drop 1) :
    ∀ s, s <:+ cs → m s = none := by
  intro s hs
  by_cases hsc : s = cs
  · rw [hsc]; exact hm
  · by_contra hne
    obtain ⟨r, hr⟩ := Option.ne_none_iff_exists'.1 hne
    obtain ⟨u, rfl⟩ := hstart s r hr
    cases cs with
    | nil =>
      have h0 := List.suffix_nil.1 hs
      simp at h0
    | cons c t =>
      rcases List.suffix_cons_iff.1 hs with he | hs2
      · exact hsc he
      · exact htail (hs2.subset (List.mem_cons_self '<' u))

/-- Helper: a whole scan is empty under the conditions of
`no_suffix_match`. -/
theorem scanPos_nil_of {α : Type} (m : List Char → Option (α × List Char))
    (hstart : ∀ cs r, m cs = some r → ∃ t, cs = '<' :: t)
    (cs : List Char) (hm : m cs = none) (htail : '<' ∉ cs.drop 1) :
    scanPos m cs = [] :=
  scanPosAux_nil m _ _ cs (no_suffix_match m hstart cs hm htail)

/-- Counterexample to C8 as stated: a response text consisting exactly of
the tag shape claimed by the spec, `<ls dir="..." showGitIgnore="0|1"/>`,
yields no tool call at all — the `ls` regex of the code knows only the
attributes `path` and `depth`. -/
theorem lsTag_dir_showGitIgnore_cex :
    parseToolsV2 "<ls dir=\"src\" showGitIgnore=\"1\"/>" = [] := by
  decide

/-- Helper: `ls` matches only start with `<`. -/
theorem matchLs_starts :
    ∀ cs r, matchLs cs = some r → ∃ t, cs = '<' :: t := by
  intro cs r h
  unfold matchLs at h
  obtain ⟨r1, h1, _⟩ := Option.bind_eq_some.1 h
  exact litS_lt_starts h1 ⟨_, rfl⟩

/-- Helper: scanning skips a prefix containing no `<` without consuming
anything of the rest, for a matcher whose matches start with `<`. -/
theorem scanPosAux_append_skip {α : Type} (m : List Char → Option (α × List Char))
    (hstart : ∀ cs r, m cs = some r → ∃ t, cs = '<' :: t) :
    ∀ (preL : List Char), '<' ∉ preL → ∀ (fuel i : Nat) (rest : List Char),
      scanPosAux m (preL.length + fuel) i (preL ++ rest) =
        scanPosAux m fuel (i + preL.length) rest := by
  intro preL
  induction preL with
  | nil => intro _ fuel i rest; simp
  | cons a pl ih =>
    intro hpre fuel i rest
    have ha : m (a :: (pl ++ rest)) = none := by
      cases hm : m (a :: (pl ++ rest)) with
      | none => rfl
      | some r =>
        obtain ⟨u, hu⟩ := hstart _ r hm
        have ha2 : a = '<' := by injection hu
        subst ha2
        exact absurd (List.mem_cons_self _ _) hpre
    have hpre2 : '<' ∉ pl := fun h => hpre (List.mem_cons_of_mem a h)
    simp only [List.length_cons, List.cons_append]
    rw [show pl.length + 1 + fuel = (pl.length + fuel) + 1 from by omega]
    simp only [scanPosAux, ha]
    rw [ih hpre2 fuel (i + 1) rest]
    rw [show i + 1 + pl.length = i + (pl.length + 1) from by omega]

/-- Helper: a match of the whole remaining tag at the end of a `<`-free
prefix is recorded by the scan, whatever comes before and after. -/
theorem scanPos_mem_of_match {α : Type} (m : List Char → Option (α × List Char))
    (hstart : ∀ cs r, m cs = some r → ∃ t, cs = '<' :: t)
    (preL : List Char) (hpre : '<' ∉ preL) (c : Char) (t : List Char)
    (caps : α) (rest : List Char) (hm : m (c :: t) = some (caps, rest))
    (hr : rest.length < t.length + 1) :
    (preL.length, caps) ∈ scanPos m (preL ++ c :: t) := by
  unfold scanPos
  rw [List.length_append, List.length_cons]
  rw [scanPosAux_append_skip m hstart preL hpre (t.length + 1) 0 (c :: t)]
  simp only [scanPosAux, hm, if_pos hr, Nat.zero_add]
  exact List.mem_cons_self _ _

/-- C8 (amended).  The `ls` tool tag accepts the attributes `path` and
`depth` (shape `<ls path="..." depth="..."/>`): for every response text
containing such a tag — attribute values free of the quote character, and
no `<` occurring before the tag (an earlier `<ls path="` fragment can
otherwise make the leftmost regex match swallow the tag) — the second
variant's parser extracts an `ls` tool call carrying those two parameters
(empty values defaulting to `"."` and `"3"` through `match[i] || default`).
Text after the tag is unrestricted and the values may contain `<`, as the
two concrete conjuncts demonstrate. -/
theorem lsTag_path_depth (pre post p d : String) (hpre : '<' ∉ pre.toList)
    (hpq : ∀ c ∈ p.toList, c ≠ '"') (hdq : ∀ c ∈ d.toList, c ≠ '"') :
    ((⟨"ls", [("path", jsOr (some p) "."), ("depth", jsOr (some d) "3")]⟩ : ToolCall) ∈
      parseToolsV2 (pre ++ "<ls path=\"" ++ p ++ "\" depth=\"" ++ d ++ "\"/>" ++ post))
    ∧ parseToolsV2 "Sure! <ls path=\"src\" depth=\"2\"/> done" =
        [⟨"ls", [("path", "src"), ("depth", "2")]⟩]
    ∧ parseToolsV2 "<ls path=\"a<b\" depth=\"2\"/>" =
        [⟨"ls", [("path", "a<b"), ("depth", "2")]⟩] := by
  refine ⟨?_, by decide, by decide⟩
  have hcs : (pre ++ "<ls path=\"" ++ p ++ "\" depth=\"" ++ d ++ "\"/>" ++ post).toList =
      pre.toList ++ lsTagChars p d post.toList := by
    simp [lsTagChars, String.toList, String.data_append]
  have hA : optAttrStar "path=\""
      (' ' :: 'p' :: 'a' :: 't' :: 'h' :: '=' :: '"' ::
        (p.toList ++ '"' :: ' ' :: 'd' :: 'e' :: 'p' :: 't' :: 'h' :: '=' :: '"' ::
          (d.toList ++ '"' :: '/' :: '>' :: post.toList))) =
      some (p, ' ' :: 'd' :: 'e' :: 'p' :: 't' :: 'h' :: '=' :: '"' ::
        (d.toList ++ '"' :: '/' :: '>' :: post.toList)) :=
    capStar_eval hpq
  have hB : optAttrStar "depth=\""
      (' ' :: 'd' :: 'e' :: 'p' :: 't' :: 'h' :: '=' :: '"' ::
        (d.toList ++ '"' :: '/' :: '>' :: post.toList)) =
      some (d, '/' :: '>' :: post.toList) :=
    capStar_eval hdq
  have hC : lsBody
      (' ' :: 'p' :: 'a' :: 't' :: 'h' :: '=' :: '"' ::
        (p.toList ++ '"' :: ' ' :: 'd' :: 'e' :: 'p' :: 't' :: 'h' :: '=' :: '"' ::
          (d.toList ++ '"' :: '/' :: '>' :: post.toList))) =
      some ((some p, some d), post.toList) := by
    simp only [lsBody, hA]
    simp only [lsAfterPath, hB]
    rfl
  have hLs : matchLs (lsTagChars p d post.toList) =
      some ((some p, some d), post.toList) := by
    have h0 : matchLs (lsTagChars p d post.toList) = lsBody
        (' ' :: 'p' :: 'a' :: 't' :: 'h' :: '=' :: '"' ::
          (p.toList ++ '"' :: ' ' :: 'd' :: 'e' :: 'p' :: 't' :: 'h' :: '=' :: '"' ::
            (d.toList ++ '"' :: '/' :: '>' :: post.toList))) := rfl
    rw [h0, hC]
  have hr : post.toList.length <
      ('l' :: 's' :: ' ' :: 'p' :: 'a' :: 't' :: 'h' :: '=' :: '"' ::
        (p.toList ++ '"' :: ' ' :: 'd' :: 'e' :: 'p' :: 't' :: 'h' :: '=' :: '"' ::
          (d.toList ++ '"' :: '/' :: '>' :: post.toList))).length + 1 := by
    simp [List.length_append]
    omega
  have hmem0 : (pre.toList.length, ((some p, some d) : Option String × Option String)) ∈
      scanPos matchLs (pre.toList ++ lsTagChars p d post.toList) :=
    scanPos_mem_of_match matchLs matchLs_starts pre.toList hpre '<' _
      (some p, some d) post.toList hLs hr
  have hmem : (⟨"ls", [("path", jsOr (some p) "."), ("depth", jsOr (some d) "3")]⟩ : ToolCall) ∈
      lsGroup (pre ++ "<ls path=\"" ++ p ++ "\" depth=\"" ++ d ++ "\"/>" ++ post) := by
    unfold lsGroup
    rw [hcs]
    exact List.mem_map.2 ⟨(pre.toList.length, (some p, some d)), hmem0, rfl⟩
  unfold parseToolsV2
  exact List.mem_append.2 (Or.inr hmem)

/-- Witness for the amended C8: the tag inside surrounding prose. -/
theorem lsTag_path_depth_witness :
    (⟨"ls", [("path", "src"), ("depth", "2")]⟩ : ToolCall) ∈
      parseToolsV2 ("Sure! " ++ "<ls path=\"" ++ "src" ++ "\" depth=\"" ++ "2" ++
        "\"/>" ++ " done") :=
  (lsTag_path_depth "Sure! " " done" "src" "2" (by decide) (by decide) (by decide)).1
